import Mathlib

/-!
Shallow embedding of `streamlit_app.py` ("Doctor Appointment Assistant").

External effects are made explicit:
* the HTTP transport (`requests.post`) is an oracle `HttpRequest → HttpResult`
  supplied to `send_doctor_request`; the embedding additionally returns the
  list of requests the call issued;
* the file system behind `appointments.json` is modelled by its parsed view
  `Option (List Record)` (`none` = the file does not exist); an exception
  raised anywhere inside the `try` block of `save_to_json` (an unreadable or
  unparsable file at `json.load`, or an I/O failure while writing) is modelled
  by the `IOOutcome.raises` oracle, which also says which file state the
  failed attempt leaves behind;
* `print` output is collected in a list of strings;
* the language-model agent is an oracle `String → String`.
-/

namespace DoctorApp

/-- One appointment record, the dict
`{"patient": ..., "doctor": ..., "date": ..., "time": ...}` built by
`save_to_json`. -/
structure Record where
  patient : String
  doctor : String
  date : String
  time : String
deriving DecidableEq

/-- One doctor entry of the directory returned by `get_doctors`: a specialty
and an availability table (day-range label ↦ list of (period label,
time-range)).  Python dicts keep insertion order, so mappings are embedded as
association lists. -/
structure Doctor where
  specialty : String
  availability : List (String × List (String × String))
deriving DecidableEq

/-- An HTTP POST as issued by `requests.post(url, headers=..., json=payload)`:
the body is the JSON object `payload`, an insertion-ordered mapping of string
fields. -/
structure HttpRequest where
  url : String
  headers : List (String × String)
  body : List (String × String)
deriving DecidableEq

/-- What the transport does with a request: deliver it and produce a response
with the given status code, or raise an exception carrying a message
(`str(e)` in the Python source). -/
inductive HttpResult where
  | response (status : Nat)
  | raises (msg : String)
deriving DecidableEq

/-- The `VERCEL_WEBHOOK_URL` constant of the source (line 14). -/
def VERCEL_WEBHOOK_URL : String := "https://giaic-q4.vercel.app/set-appointment"

/-- The doctor directory literal returned by `get_doctors` (lines 53-75). -/
def get_doctors : List (String × Doctor) :=
  [("Dr. Khan",
    { specialty := "Dermatologist"
      availability :=
        [("Monday to Friday",
          [("Morning", "10:00 AM - 2:00 PM"),
           ("Evening", "7:00 PM - 10:00 PM")])] }),
   ("Dr. Ahmed",
    { specialty := "Neurologist"
      availability :=
        [("Monday to Friday",
          [("Evening", "7:00 PM - 11:00 PM")]),
         ("Saturday",
          [("Morning", "10:00 AM - 2:00 PM"),
           ("Evening", "7:00 PM - 11:00 PM")])] })]

/-- The single request `send_doctor_request` builds (lines 81-91): the fixed
webhook URL, the `Content-Type: application/json` header, and the payload
dict in its literal field order. -/
def doctorWebhookRequest (patient_name doctor_name date time : String) : HttpRequest :=
  { url := VERCEL_WEBHOOK_URL
    headers := [("Content-Type", "application/json")]
    body := [("patient_name", patient_name), ("doctor_name", doctor_name),
             ("date", date), ("time", time)] }

/-- Embedding of `send_doctor_request` (lines 78-97).  Returns the status string handed
back to the agent together with the list of HTTP requests the call issued
(`requests.post` is attempted exactly once; a transport exception still
counts as that one attempt).  Every branch returns a string: the `except`
clause catches any transport exception, so nothing propagates to the
caller. -/
def send_doctor_request (transport : HttpRequest → HttpResult)
    (patient_name doctor_name date time : String) : String × List HttpRequest :=
  let req := doctorWebhookRequest patient_name doctor_name date time
  let msg :=
    match transport req with
    | HttpResult.response code =>
        if code = 200 then "✅ Doctor notified via webhook!"
        else "❌ Doctor notification failed (status code " ++ toString code ++ ")"
    | HttpResult.raises e => "❌ Webhook error: " ++ e
  (msg, [req])

/-- The string `needle` occurs contiguously inside `hay`. -/
def substringOf (needle hay : String) : Prop :=
  ∃ a b, hay = a ++ needle ++ b

/-- C1: `send_doctor_request` classifies the transport outcome: status 200
yields the success string; any other status yields a rejection string that
contains the decimal status code; a transport exception yields a failure
string that contains the exception text.  The embedding is a total function,
so no exception propagates to the caller in any case. -/
theorem send_doctor_request_outcome_classification
    (transport : HttpRequest → HttpResult) (pn dn d t : String) :
    (transport (doctorWebhookRequest pn dn d t) = HttpResult.response 200 →
      (send_doctor_request transport pn dn d t).1 = "✅ Doctor notified via webhook!")
    ∧ (∀ code, transport (doctorWebhookRequest pn dn d t) = HttpResult.response code →
        code ≠ 200 →
        substringOf (toString code) (send_doctor_request transport pn dn d t).1)
    ∧ (∀ e, transport (doctorWebhookRequest pn dn d t) = HttpResult.raises e →
        substringOf e (send_doctor_request transport pn dn d t).1) := by
  refine ⟨fun h => ?_, fun code h hne => ?_, fun e h => ?_⟩
  · simp [send_doctor_request, h]
  · refine ⟨"❌ Doctor notification failed (status code ", ")", ?_⟩
    simp [send_doctor_request, h, hne]
  · exact ⟨"❌ Webhook error: ", "", by simp [send_doctor_request, h]⟩

/-- Witness for C1 at concrete transports: a 200 response, a 500 response
(whose report contains "500"), and a raised exception (whose report contains
the exception text). -/
theorem webhook_outcome_classification_instance :
    (send_doctor_request (fun _ => HttpResult.response 200) "Ali" "Dr. Khan" "Monday" "10 AM").1
      = "✅ Doctor notified via webhook!"
    ∧ substringOf "500"
        (send_doctor_request (fun _ => HttpResult.response 500) "Ali" "Dr. Khan" "Monday" "10 AM").1
    ∧ substringOf "boom"
        (send_doctor_request (fun _ => HttpResult.raises "boom") "Ali" "Dr. Khan" "Monday" "10 AM").1 := by
  refine ⟨?_, ?_, ?_⟩
  · exact (send_doctor_request_outcome_classification
      (fun _ => HttpResult.response 200) "Ali" "Dr. Khan" "Monday" "10 AM").1 rfl
  · exact (send_doctor_request_outcome_classification
      (fun _ => HttpResult.response 500) "Ali" "Dr. Khan" "Monday" "10 AM").2.1 500 rfl (by decide)
  · exact (send_doctor_request_outcome_classification
      (fun _ => HttpResult.raises "boom") "Ali" "Dr. Khan" "Monday" "10 AM").2.2 "boom" rfl

/-- C6: every call to `send_doctor_request` issues exactly one HTTP POST
(also when the transport raises: the one attempt was made, and there is no
retry), to the fixed webhook URL, with the `Content-Type: application/json`
header and exactly the four-field JSON body in source order. -/
theorem send_doctor_request_single_fixed_post
    (transport : HttpRequest → HttpResult) (pn dn d t : String) :
    (send_doctor_request transport pn dn d t).2 = [doctorWebhookRequest pn dn d t]
    ∧ (doctorWebhookRequest pn dn d t).url = VERCEL_WEBHOOK_URL
    ∧ (doctorWebhookRequest pn dn d t).headers = [("Content-Type", "application/json")]
    ∧ (doctorWebhookRequest pn dn d t).body =
        [("patient_name", pn), ("doctor_name", dn), ("date", d), ("time", t)] :=
  ⟨rfl, rfl, rfl, rfl⟩

/-- Outcome of the fallible file I/O inside the `try` block of
`save_to_json`: either everything succeeds, or some step raises an exception
with message `msg` (an unreadable or unparsable `appointments.json` at
`json.load`, or an error while opening/writing the file), leaving the file in
state `post` (`post` is the file's parsed view afterwards: unchanged for a
load failure, possibly different for a failed write). -/
inductive IOOutcome where
  | ok
  | raises (msg : String) (post : Option (List Record))
deriving DecidableEq

/-- JSON values, as far as this program produces them. -/
inductive Json where
  | str (s : String)
  | arr (xs : List Json)
  | obj (fields : List (String × Json))

/-- The JSON object `json.dump` receives for one record dict. -/
def recordJson (r : Record) : Json :=
  Json.obj [("patient", Json.str r.patient), ("doctor", Json.str r.doctor),
            ("date", Json.str r.date), ("time", Json.str r.time)]

/-- Observable result of one `save_to_json` call: the file's new parsed view,
the argument pair `(value, indent)` passed to `json.dump` when the dump was
reached (`none` when the call failed before/at the dump), and the lines sent
to `print`. -/
structure SaveResult where
  fs : Option (List Record)
  dumped : Option (Json × Nat)
  printed : List String
deriving Inhabited

/-- Embedding of `save_to_json` (lines 109-118): read the existing records if the file
exists (else start from `[]`), append the one new record, and rewrite the
whole file with `json.dump(data, f, indent=2)`.  The enclosing
`try`/`except Exception` catches every error and only prints
`"JSON save error: ..."`, so the function never raises. -/
def save_to_json (io : IOOutcome) (patient_name doctor_name date time : String)
    (fs : Option (List Record)) : SaveResult :=
  let record : Record := { patient := patient_name, doctor := doctor_name,
                           date := date, time := time }
  match io with
  | IOOutcome.ok =>
      let data := fs.getD [] ++ [record]
      { fs := some data
        dumped := some (Json.arr (data.map recordJson), 2)
        printed := [] }
  | IOOutcome.raises msg post =>
      { fs := post, dumped := none, printed := ["JSON save error: " ++ msg] }

/-- Embedding of `confirm_patient` (lines 99-107).  The `try` body formats a message
string (total), calls `save_to_json` — which catches all of its exceptions
internally and never raises — and returns the fixed success string, so the
`except` branch (the `"❌ Failed to notify patient: ..."` string) corresponds
to no reachable execution; the embedding keeps it behind an `Except` whose
error case never arises. -/
def confirm_patient (io : IOOutcome) (patient_name doctor_name date time : String)
    (fs : Option (List Record)) : String × SaveResult :=
  let body : Except String (String × SaveResult) :=
    let res := save_to_json io patient_name doctor_name date time fs
    Except.ok ("✅ Patient notified via WhatsApp (via webhook confirmation).", res)
  match body with
  | Except.ok v => v
  | Except.error e => ("❌ Failed to notify patient: " ++ e, { fs := fs, dumped := none, printed := [] })

/-- A JSON value is an object with exactly the four record keys in source
order, each bound to a string. -/
def isRecordObjB : Json → Bool
  | Json.obj fields =>
      decide (fields.map Prod.fst = ["patient", "doctor", "date", "time"])
      && fields.all fun f => match f.2 with | Json.str _ => true | _ => false
  | _ => false

/-- A JSON value is an array whose elements are all record objects. -/
def isRecordArrayB : Json → Bool
  | Json.arr xs => xs.all isRecordObjB
  | _ => false

/-- C10: `confirm_patient` returns the fixed success string on every input —
also when the underlying write fails — because `save_to_json` catches every
exception internally; the `"❌ Failed to notify patient"` branch is
unreachable, so a persistence failure is never observable by the agent or
the user. -/
theorem confirm_patient_always_success (io : IOOutcome)
    (pn dn d t : String) (fs : Option (List Record)) :
    (confirm_patient io pn dn d t fs).1
      = "✅ Patient notified via WhatsApp (via webhook confirmation)." := rfl

/-- Counterexample to C2 as stated: with a failing local write (`raises`,
file left unchanged, the error only printed) `confirm_patient` still returns
the success string — not a `PersistFailure` outcome — and the record was not
persisted. -/
theorem confirm_patient_success_despite_failed_write :
    (confirm_patient (IOOutcome.raises "No space left on device" (some []))
        "Ali" "Dr. Khan" "2025-01-06" "10:30 AM" (some [])).1
      = "✅ Patient notified via WhatsApp (via webhook confirmation)."
    ∧ (confirm_patient (IOOutcome.raises "No space left on device" (some []))
        "Ali" "Dr. Khan" "2025-01-06" "10:30 AM" (some [])).2.fs = some []
    ∧ (confirm_patient (IOOutcome.raises "No space left on device" (some []))
        "Ali" "Dr. Khan" "2025-01-06" "10:30 AM" (some [])).2.printed
      = ["JSON save error: No space left on device"] :=
  ⟨rfl, rfl, rfl⟩

/-- C2 (amended): when the local write fails, `confirm_patient` still returns
the success outcome; the failure is caught inside `save_to_json`, logged via
`print`, and never reported to the caller — and since both functions are
total, no exception propagates and the session cannot crash. -/
theorem confirm_patient_swallows_persist_failure
    (msg : String) (post : Option (List Record))
    (pn dn d t : String) (fs : Option (List Record)) :
    (confirm_patient (IOOutcome.raises msg post) pn dn d t fs).1
      = "✅ Patient notified via WhatsApp (via webhook confirmation)."
    ∧ (confirm_patient (IOOutcome.raises msg post) pn dn d t fs).2.printed
      = ["JSON save error: " ++ msg] :=
  ⟨rfl, rfl⟩

/-- C7: a successful `save_to_json` rewrites the store in full: the new
parsed state is the entire previous collection plus the one new record, the
value handed to `json.dump` is the JSON array of exactly that full
collection with `indent=2` (pretty-printed), and that value is an array of
objects of shape `{"patient", "doctor", "date", "time"}` with string
fields. -/
theorem save_to_json_full_rewrite_pretty (pn dn d t : String)
    (fs : Option (List Record)) :
    (save_to_json IOOutcome.ok pn dn d t fs).fs
      = some (fs.getD [] ++ [({ patient := pn, doctor := dn, date := d, time := t } : Record)])
    ∧ (save_to_json IOOutcome.ok pn dn d t fs).dumped
      = some (Json.arr ((fs.getD [] ++ [({ patient := pn, doctor := dn, date := d, time := t } : Record)]).map recordJson), 2)
    ∧ isRecordArrayB
        (Json.arr ((fs.getD [] ++ [({ patient := pn, doctor := dn, date := d, time := t } : Record)]).map recordJson))
      = true := by
  refine ⟨rfl, rfl, ?_⟩
  simp only [isRecordArrayB, List.all_eq_true]
  intro x hx
  rcases List.mem_map.mp hx with ⟨r, _, rfl⟩
  rfl

/-- The externally visible state the three tools touch: the parsed view of
`appointments.json`, the HTTP requests sent so far, and the `print` log. -/
structure SysState where
  fs : Option (List Record)
  sent : List HttpRequest
  printed : List String

/-- One invocation of one of the three tools the agent may call:
`get_doctors` (a pure directory lookup), `send_doctor_request` (with its
transport oracle), or `confirm_patient` (with its file-I/O oracle). -/
inductive ToolCall where
  | doctors
  | notify (transport : HttpRequest → HttpResult) (pn dn d t : String)
  | confirm (io : IOOutcome) (pn dn d t : String)

/-- Effect of one tool call on the system state.  `get_doctors` returns a
constant and touches nothing; `send_doctor_request` only sends; only
`confirm_patient` (via `save_to_json`) touches the appointment store. -/
def runCall (c : ToolCall) (s : SysState) : SysState :=
  match c with
  | ToolCall.doctors => s
  | ToolCall.notify transport pn dn d t =>
      { s with sent := s.sent ++ (send_doctor_request transport pn dn d t).2 }
  | ToolCall.confirm io pn dn d t =>
      let r := (confirm_patient io pn dn d t s.fs).2
      { s with fs := r.fs, printed := s.printed ++ r.printed }

/-- Effect of a sequence of tool calls, in order. -/
def runCalls (cs : List ToolCall) (s : SysState) : SysState :=
  cs.foldl (fun acc c => runCall c acc) s

/-- A tool call is a successful-store call or not a store call at all. -/
def confirmOkB : ToolCall → Bool
  | ToolCall.confirm io _ _ _ _ => match io with | IOOutcome.ok => true | _ => false
  | _ => true

/-- The records a call sequence hands to `confirm_patient`, in call order. -/
def recordsOf (cs : List ToolCall) : List Record :=
  cs.filterMap fun c =>
    match c with
    | ToolCall.confirm _ pn dn d t =>
        some { patient := pn, doctor := dn, date := d, time := t }
    | _ => none

/-- Helper: over any call sequence whose store calls all succeed, the final
collection is the initial one extended by exactly the confirmed records, and
a sequence with no store calls leaves the file state untouched. -/
theorem runCalls_fs_spec (cs : List ToolCall) (s : SysState)
    (hok : ∀ c ∈ cs, confirmOkB c = true) :
    (runCalls cs s).fs.getD [] = s.fs.getD [] ++ recordsOf cs
    ∧ (recordsOf cs = [] → (runCalls cs s).fs = s.fs) := by
  induction cs generalizing s with
  | nil => exact ⟨(List.append_nil _).symm, fun _ => rfl⟩
  | cons c cs ih =>
    have hc : confirmOkB c = true := hok c (List.mem_cons_self c cs)
    have hok' : ∀ c' ∈ cs, confirmOkB c' = true :=
      fun c' h => hok c' (List.mem_cons_of_mem c h)
    have hstep : runCalls (c :: cs) s = runCalls cs (runCall c s) := rfl
    have h := ih (runCall c s) hok'
    cases c with
    | doctors =>
      have hrec : recordsOf (ToolCall.doctors :: cs) = recordsOf cs := rfl
      rw [hstep, hrec]
      exact ⟨h.1, h.2⟩
    | notify transport pn dn d t =>
      have hrec : recordsOf (ToolCall.notify transport pn dn d t :: cs) = recordsOf cs := rfl
      rw [hstep, hrec]
      exact ⟨h.1, h.2⟩
    | confirm io pn dn d t =>
      cases io with
      | raises msg post => simp [confirmOkB] at hc
      | ok =>
        have hrec : recordsOf (ToolCall.confirm IOOutcome.ok pn dn d t :: cs)
            = ({ patient := pn, doctor := dn, date := d, time := t } : Record) :: recordsOf cs := rfl
        have hfs : (runCall (ToolCall.confirm IOOutcome.ok pn dn d t) s).fs.getD []
            = s.fs.getD [] ++ [({ patient := pn, doctor := dn, date := d, time := t } : Record)] := rfl
        rw [hstep, hrec]
        refine ⟨?_, fun hn => ?_⟩
        · rw [h.1, hfs, List.append_assoc]
          rfl
        · exact absurd hn (List.cons_ne_nil _ _)

/-- C3: the appointment store is append-only: for every starting state and
every sequence of tool calls whose store writes all succeed, the final
collection is the initial collection followed by the confirmed records in
order (so every previously stored record is still present, unmodified, at
its old position), the length grows by exactly the number of store calls,
and a sequence containing no store call — directory lookups and webhook
notifications included — leaves the stored collection unchanged. -/
theorem appointment_store_append_only (cs : List ToolCall) (s : SysState)
    (hok : ∀ c ∈ cs, confirmOkB c = true) :
    (runCalls cs s).fs.getD [] = s.fs.getD [] ++ recordsOf cs
    ∧ ((runCalls cs s).fs.getD []).length
        = (s.fs.getD []).length + (recordsOf cs).length
    ∧ (recordsOf cs = [] → (runCalls cs s).fs = s.fs) := by
  have h := runCalls_fs_spec cs s hok
  exact ⟨h.1, by rw [h.1, List.length_append], h.2⟩

/-- Witness for C3: a lookup, one successful store call and a webhook
notification, starting from a one-record store. -/
theorem append_only_concrete_instance :
    (runCalls
        [ToolCall.doctors,
         ToolCall.confirm IOOutcome.ok "Ali" "Dr. Khan" "2025-01-06" "10:30 AM",
         ToolCall.notify (fun _ => HttpResult.response 200) "Ali" "Dr. Khan" "2025-01-06" "10:30 AM"]
        { fs := some [{ patient := "Sara", doctor := "Dr. Ahmed", date := "2025-01-04", time := "11:00 AM" }],
          sent := [], printed := [] }).fs.getD []
      = [{ patient := "Sara", doctor := "Dr. Ahmed", date := "2025-01-04", time := "11:00 AM" },
         { patient := "Ali", doctor := "Dr. Khan", date := "2025-01-06", time := "10:30 AM" }] := by
  have h := appointment_store_append_only
    [ToolCall.doctors,
     ToolCall.confirm IOOutcome.ok "Ali" "Dr. Khan" "2025-01-06" "10:30 AM",
     ToolCall.notify (fun _ => HttpResult.response 200) "Ali" "Dr. Khan" "2025-01-06" "10:30 AM"]
    { fs := some [{ patient := "Sara", doctor := "Dr. Ahmed", date := "2025-01-04", time := "11:00 AM" }],
      sent := [], printed := [] }
    (by intro c hc
        simp only [List.mem_cons, List.not_mem_nil, or_false] at hc
        rcases hc with rfl | rfl | rfl <;> rfl)
  rw [h.1]
  rfl

/-- C4: round-trip: writing any list of records through successful
`confirm_patient` calls and re-reading the persisted collection yields the
initial collection followed by exactly those records — fields identical,
insertion order preserved. -/
theorem appointment_store_round_trip (rs : List Record) (s : SysState) :
    (runCalls (rs.map fun r => ToolCall.confirm IOOutcome.ok r.patient r.doctor r.date r.time) s).fs.getD []
      = s.fs.getD [] ++ rs
    ∧ ((runCalls (rs.map fun r => ToolCall.confirm IOOutcome.ok r.patient r.doctor r.date r.time) s).fs.getD []).drop
        (s.fs.getD []).length = rs := by
  have hok : ∀ c ∈ rs.map fun r => ToolCall.confirm IOOutcome.ok r.patient r.doctor r.date r.time,
      confirmOkB c = true := by
    intro c hc
    rcases List.mem_map.mp hc with ⟨r, _, rfl⟩
    rfl
  have hrec : recordsOf (rs.map fun r => ToolCall.confirm IOOutcome.ok r.patient r.doctor r.date r.time) = rs := by
    simp [recordsOf, List.filterMap_map]
    exact List.filterMap_eq_map _ ▸ (by simp)
  have h := (runCalls_fs_spec (rs.map fun r => ToolCall.confirm IOOutcome.ok r.patient r.doctor r.date r.time) s hok).1
  rw [hrec] at h
  exact ⟨h, by rw [h, List.drop_left]⟩

/-- C5: the doctor directory is a fixed constant (the embedding is a closed
`def` of no inputs, hence pure and deterministic); it is non-empty and every
entry carries a non-empty specialty and at least one availability window. -/
theorem get_doctors_nonempty_wellformed :
    get_doctors ≠ []
    ∧ ∀ e ∈ get_doctors, e.2.specialty ≠ "" ∧ e.2.availability ≠ [] := by
  decide

/-- Witness for C5 at the first directory entry, "Dr. Khan". -/
theorem doctor_directory_instance :
    ("Dr. Khan",
      ({ specialty := "Dermatologist"
         availability :=
           [("Monday to Friday",
             [("Morning", "10:00 AM - 2:00 PM"),
              ("Evening", "7:00 PM - 10:00 PM")])] } : Doctor)).2.specialty ≠ ""
    ∧ ("Dr. Khan",
      ({ specialty := "Dermatologist"
         availability :=
           [("Monday to Friday",
             [("Morning", "10:00 AM - 2:00 PM"),
              ("Evening", "7:00 PM - 10:00 PM")])] } : Doctor)).2.availability ≠ [] :=
  get_doctors_nonempty_wellformed.2 _ (by decide)

/-- The placeholder assistant message of a provisional turn (line 183). -/
def thinking : String := "thinking..."

/-- The guard of line 186: the history is non-empty and its last turn still
carries the placeholder assistant message. -/
def pendingLastB (h : List (String × String)) : Bool :=
  match h.getLast? with
  | some turn => turn.2 == thinking
  | none => false

/-- Lines 186-192 of the script: if the last turn is pending, invoke the
agent on that turn's user message and replace the placeholder with the
reply.  Returns the new history together with the inputs passed to the agent
during this block. -/
def resolveBlock (agentFn : String → String) (h : List (String × String)) :
    List (String × String) × List String :=
  match h.getLast? with
  | some turn =>
      if turn.2 == thinking then
        (h.dropLast ++ [(turn.1, agentFn turn.1)], [turn.1])
      else (h, [])
  | none => (h, [])

/-- One run of the state-mutating part of the script (lines 182-192), given
the value of `st.chat_input` for this run (`none`, or `some s`; Python's
`if user_input:` treats the empty string like `None`).  When input is
present, the script appends a provisional turn and calls `st.rerun()`, so
the resolve block is not reached in that run; otherwise the resolve block
runs.  Returns the new history and the list of agent inputs invoked. -/
def scriptRun (agentFn : String → String) (input : Option String)
    (h : List (String × String)) : List (String × String) × List String :=
  match input with
  | some s =>
      if s.isEmpty then resolveBlock agentFn h
      else (h ++ [(s, thinking)], [])
  | none => resolveBlock agentFn h

/-- Session states reachable from the empty history of line 171.  Per the
spec's execution model (§4.5/§5: single-threaded, synchronous per turn, "a
new user message is not accepted mid-turn"), a user-input run only happens
when no turn is pending; the rerun after an append immediately executes an
input-free run. -/
inductive Reachable (agentFn : String → String) : List (String × String) → Prop
  | init : Reachable agentFn []
  | userStep (h : List (String × String)) (s : String) :
      Reachable agentFn h → pendingLastB h = false →
      Reachable agentFn (scriptRun agentFn (some s) h).1
  | agentStep (h : List (String × String)) :
      Reachable agentFn h → Reachable agentFn (scriptRun agentFn none h).1

/-- Helper: when the last turn is not pending, the resolve block is a
no-op. -/
theorem resolveBlock_not_pending (agentFn : String → String)
    (h : List (String × String)) (hnp : pendingLastB h = false) :
    resolveBlock agentFn h = (h, []) := by
  cases hg : h.getLast? with
  | none => simp [resolveBlock, hg]
  | some turn =>
    have hb : (turn.2 == thinking) = false := by
      unfold pendingLastB at hnp; rwa [hg] at hnp
    simp [resolveBlock, hg, hb]

/-- Helper: the answered-turns invariant is preserved along every reachable
state: every turn before the last carries a real reply, never the
placeholder. -/
theorem reachable_dropLast_answered (agentFn : String → String)
    (h : List (String × String)) (hr : Reachable agentFn h) :
    ∀ turn ∈ h.dropLast, turn.2 ≠ thinking := by
  induction hr with
  | init => intro turn ht; simp at ht
  | userStep h s hr hnp ih =>
    by_cases hs : s.isEmpty
    · intro turn ht
      rw [scriptRun, if_pos hs, resolveBlock_not_pending agentFn _ hnp] at ht
      exact ih turn ht
    · intro turn ht
      rw [scriptRun, if_neg hs, List.dropLast_concat] at ht
      rcases h.eq_nil_or_concat with rfl | ⟨l, last, rfl⟩
      · simp at ht
      · rw [List.concat_eq_append] at ht hnp
        rcases List.mem_append.mp ht with hmem | hmem
        · exact ih turn (by rw [List.concat_eq_append, List.dropLast_concat]; exact hmem)
        · have hturn : turn = last := by simpa using hmem
          have hb : (last.2 == thinking) = false := by
            unfold pendingLastB at hnp; rwa [List.getLast?_concat] at hnp
          rw [hturn]
          simpa using hb
  | agentStep h hr ih =>
    rcases h.eq_nil_or_concat with rfl | ⟨l, last, rfl⟩
    · intro turn ht; simp [scriptRun, resolveBlock, List.dropLast] at ht
    · rw [List.concat_eq_append]
      rw [List.concat_eq_append] at ih
      by_cases hp : pendingLastB (l ++ [last]) = true
      · have hlast : (last.2 == thinking) = true := by
          unfold pendingLastB at hp
          rwa [List.getLast?_concat] at hp
        intro turn ht
        simp only [scriptRun, resolveBlock, List.getLast?_concat, hlast, if_true,
          List.dropLast_concat] at ht
        exact ih turn (by rw [List.dropLast_concat]; exact ht)
      · intro turn ht
        rw [scriptRun, resolveBlock_not_pending agentFn _ (by simpa using hp)] at ht
        exact ih turn ht

/-- C8: the session turn state machine: (a) in every reachable history, at
most the last turn is pending — every earlier turn carries a real reply;
(b) the only transition out of a pending turn replaces just the placeholder
with the agent's reply, preserving the pending turn's user message and all
earlier turns; (c) new (non-empty) user input appends one provisional turn
and leaves every existing turn unchanged. -/
theorem chat_history_single_pending_invariant (agentFn : String → String) :
    (∀ h, Reachable agentFn h → ∀ turn ∈ h.dropLast, turn.2 ≠ thinking)
    ∧ (∀ (d : List (String × String)) (u : String),
        (scriptRun agentFn none (d ++ [(u, thinking)])).1 = d ++ [(u, agentFn u)])
    ∧ (∀ (h : List (String × String)) (s : String), ¬ s.isEmpty = true →
        (scriptRun agentFn (some s) h).1 = h ++ [(s, thinking)]) := by
  refine ⟨reachable_dropLast_answered agentFn, fun d u => ?_, fun h s hs => ?_⟩
  · simp only [scriptRun, resolveBlock, List.getLast?_concat]
    simp [List.dropLast_concat]
  · rw [scriptRun, if_neg hs]

/-- Witness for C8: after the reachable run (user "hi" → answered → user
"yo" pending), the single answered turn before the pending one does not
carry the placeholder; the resolve transition and the append transition are
exercised at the same concrete inputs. -/
theorem chat_history_invariant_instance :
    (("hi", (fun x => "ok:" ++ x) "hi").2 ≠ thinking)
    ∧ (scriptRun (fun x => "ok:" ++ x) none [("hi", thinking)]).1 = [("hi", "ok:hi")]
    ∧ (scriptRun (fun x => "ok:" ++ x) (some "yo") [("hi", "ok:hi")]).1
        = [("hi", "ok:hi"), ("yo", thinking)] := by
  have hmain := chat_history_single_pending_invariant (fun x => "ok:" ++ x)
  refine ⟨?_, ?_, ?_⟩
  · have h1 : Reachable (fun x => "ok:" ++ x) (scriptRun (fun x => "ok:" ++ x) (some "hi") []).1 :=
      Reachable.userStep [] "hi" Reachable.init rfl
    have h1' : Reachable (fun x => "ok:" ++ x) [("hi", thinking)] := h1
    have h2 : Reachable (fun x => "ok:" ++ x) (scriptRun (fun x => "ok:" ++ x) none [("hi", thinking)]).1 :=
      Reachable.agentStep _ h1'
    have h2' : Reachable (fun x => "ok:" ++ x) [("hi", "ok:hi")] := by
      have he : (scriptRun (fun x => "ok:" ++ x) none [("hi", thinking)]).1 = [("hi", "ok:hi")] :=
        hmain.2.1 [] "hi"
      rwa [he] at h2
    have h3 : Reachable (fun x => "ok:" ++ x)
        (scriptRun (fun x => "ok:" ++ x) (some "yo") [("hi", "ok:hi")]).1 :=
      Reachable.userStep _ "yo" h2' rfl
    have h3' : Reachable (fun x => "ok:" ++ x) [("hi", "ok:hi"), ("yo", thinking)] := by
      have he : (scriptRun (fun x => "ok:" ++ x) (some "yo") [("hi", "ok:hi")]).1
          = [("hi", "ok:hi")] ++ [("yo", thinking)] := hmain.2.2 _ "yo" (by decide)
      rwa [he] at h3
    exact hmain.1 _ h3' ("hi", "ok:hi") (by simp)
  · exact hmain.2.1 [] "hi"
  · exact hmain.2.2 [("hi", "ok:hi")] "yo" (by decide)

/-- C9: whenever the agent is invoked (the last turn is pending), it is
invoked exactly once and receives exactly the latest user message — the
user message of that pending turn — and nothing else: the prior turns `d`
do not appear in the invocation list. -/
theorem agent_invoked_with_latest_message_only (agentFn : String → String)
    (d : List (String × String)) (u : String) :
    (scriptRun agentFn none (d ++ [(u, thinking)])).2 = [u] := by
  simp only [scriptRun, resolveBlock, List.getLast?_concat]
  simp

end DoctorApp
